import Mathlib

/-!
# Digital dial gauge web-serial reader: verification of the Mode A engine

Shallow embedding of the browser engine in `src/vscode/test.html` (whose
character-level segmentation loop is line-for-line the same as
`parseGaugeData` in `src/serial-gauge-log.js` and `src/unnamed/part_001`):
the fixed-digit ASCII frame segmenter (`readSerialLoop`'s per-character
loop over `serialBuffer` / `pendingMinus`), the display-and-event path
(`updateValue`), the zero and unit-toggle button handlers, and the CSV
export builder (`downloadBtn`).

Modelling conventions:
* JavaScript numbers are modelled as exact rationals; binary-float
  rounding and `toFixed(3)` display rounding are not modelled.
* Wall-clock timestamps (the `toLocaleTimeString` prefix of every log
  line and the `toISOString` field of an export record) are environment
  inputs irrelevant to the properties proved here and are omitted from
  the modelled log entries and records.
* A chunk is the decoded character sequence of one `reader.read()`
  result; the engine state collects, besides the source's mutable
  variables, the history of emitted value events so that emission can be
  stated as list append.
-/

namespace DialGauge

/-- The active display unit: `useInches = false` is mm, `true` is inches. -/
inductive GaugeUnit where
  | mm
  | inch
deriving DecidableEq

/-- The bracketed tag of a log line, as written by the source:
BIN, RAW, PARSED, INFO, WARN, ERROR, STATUS from the engine paths, and
DATA from `updateValue` (plus EXCEPTION from the read-loop catch, not
reached by the modelled functions). -/
inductive Tag where
  | bin
  | raw
  | parsed
  | info
  | warn
  | error
  | status
  | data
  | exception
deriving DecidableEq

/-- One line pushed to the log window (`logLine` in the source); the
wall-clock prefix is omitted (see module conventions). -/
structure LogEntry where
  tag : Tag
  msg : String
deriving DecidableEq

/-- One export record pushed to `logData`
(`logData.push(\x7b timestamp, value \x7d)` in the source); the
ISO-timestamp field is an environment input and is omitted. -/
structure Record where
  value : ℚ
deriving DecidableEq

/-- The engine's mutable state: the source's module-level variables
`serialBuffer`, `pendingMinus`, `zeroOffset`, `useInches`, `logData`,
`logLines`, plus the history of emitted (value, unit) display events. -/
structure EngineState where
  serialBuffer : List Char
  pendingMinus : Bool
  zeroOffset : ℚ
  useInches : Bool
  logData : List Record
  logs : List LogEntry
  events : List (ℚ × GaugeUnit)
deriving DecidableEq

/-- The initial values of the source's module-level variables. -/
def initialState : EngineState :=
  { serialBuffer := []
    pendingMinus := false
    zeroOffset := 0
    useInches := false
    logData := []
    logs := []
    events := [] }

/-- `const EXPECTED_DIGIT_LENGTH = 6` in the source. -/
def EXPECTED_DIGIT_LENGTH : Nat := 6

/-- `logLine`: push a line and drop the oldest once the window exceeds
200 lines (`if (logLines.length > 200) logLines.shift()`). -/
def pushLog (e : LogEntry) (ls : List LogEntry) : List LogEntry :=
  let ls' := ls ++ [e]
  if ls'.length > 200 then ls'.tail else ls'

/-- Lower-case hex digit, as produced by `b.toString(16)`. -/
def hexDigitChar (n : Nat) : Char :=
  if n < 10 then Char.ofNat (48 + n) else Char.ofNat (97 + (n - 10))

/-- Two-digit hex rendering of one byte (`toString(16).padStart(2, '0')`). -/
def hexByte (b : Nat) : String :=
  String.mk [hexDigitChar (b / 16 % 16), hexDigitChar (b % 16)]

/-- Space-separated hex dump of a chunk, as in the `[BIN]` log line. -/
def hexOfChunk (chunk : List Char) : String :=
  String.intercalate " " (chunk.map fun c => hexByte c.toNat)

/-- Message of the `[BIN]` log line. -/
def binMsg (chunk : List Char) : String :=
  "[" ++ toString chunk.length ++ " bytes] " ++ hexOfChunk chunk

/-- Message of the `[RAW]` log line (the `JSON.stringify` quoting of the
decoded text is not modelled). -/
def rawMsg (chunk : List Char) : String :=
  String.mk chunk

/-- Message of the `[PARSED]` log line. -/
def parsedMsg (numStr : List Char) : String :=
  String.mk numStr ++ " mm"

/-- Message of the `[WARN] Could not parse buffered value` log line. -/
def warnMsg (buf : List Char) : String :=
  "Could not parse buffered value: " ++ String.mk buf

/-- Message of the `[INFO] Ignored buffer` log line. -/
def infoIgnoredMsg (buf : List Char) : String :=
  "Ignored buffer (unexpected length " ++ toString buf.length ++ "): " ++ String.mk buf

/-- Unit label as displayed (`'mm'` / `'in'`). -/
def unitName : GaugeUnit → String
  | GaugeUnit.mm => "mm"
  | GaugeUnit.inch => "in"

/-- Message of the `[DATA]` log line written by `updateValue`
(decimal rendering of the numbers simplified from `toFixed(3)`). -/
def dataMsg (displayVal : ℚ) (u : GaugeUnit) (raw : ℚ) : String :=
  "Value: " ++ toString displayVal ++ " " ++ unitName u
    ++ " (raw: " ++ toString raw ++ ")"

/-- Decimal value of a digit string read left to right, the way repeated
`parseInt`-style accumulation reads it: fold `a * 10 + digit`. -/
def natOfDigits (ds : List Char) : Nat :=
  ds.foldl (fun a c => a * 10 + (c.toNat - 48)) 0

/-- Models JavaScript `parseFloat` on an unsigned plain decimal string
(leading digits, optionally a dot and further digits); returns `none`
exactly when no leading digit exists, which is when `parseFloat` yields
`NaN` on the strings this program builds. -/
def parseUnsignedQ (s : List Char) : Option ℚ :=
  let intPart := s.takeWhile fun c => c.isDigit
  let rest := s.dropWhile fun c => c.isDigit
  if intPart.isEmpty then none
  else if rest.head? = some '.' then
    let fracPart := rest.tail.takeWhile fun c => c.isDigit
    some ((natOfDigits intPart : ℚ) + (natOfDigits fracPart : ℚ) / 10 ^ fracPart.length)
  else
    some ((natOfDigits intPart : ℚ))

/-- Models JavaScript `parseFloat` on the decimal strings this program
builds: an optional leading minus sign, then an unsigned decimal. -/
def parseFloatQ (s : List Char) : Option ℚ :=
  if s.head? = some '-' then (parseUnsignedQ s.tail).map (fun q => -q)
  else parseUnsignedQ s

/-- `serialBuffer.replace(/^0+/, '')`: strip leading zero characters. -/
def stripLeadingZeros (s : List Char) : List Char :=
  s.dropWhile fun c => c = '0'

/-- The decimal-point insertion chain of the source: a dot 3 digits from
the end when more than 3 digits remain, else `0.` / `0.0` / `0.00`
padding for 3 / 2 / 1 digits. -/
def insertDot (numStr : List Char) : List Char :=
  if numStr.length > 3 then
    numStr.take (numStr.length - 3) ++ '.' :: numStr.drop (numStr.length - 3)
  else if numStr.length = 3 then
    '0' :: '.' :: numStr
  else if numStr.length = 2 then
    '0' :: '.' :: '0' :: numStr
  else if numStr.length = 1 then
    '0' :: '.' :: '0' :: '0' :: numStr
  else numStr

/-- The `numStr` construction of the terminator branch: strip leading
zeros (empty result becomes "0"), insert the decimal point, prepend the
minus sign when the pending-negative flag is set. -/
def formatNumStr (buf : List Char) (pendingMinus : Bool) : List Char :=
  let stripped := stripLeadingZeros buf
  let base := if stripped.length = 0 then ['0'] else stripped
  let dotted := insertDot base
  if pendingMinus then '-' :: dotted else dotted

/-- `updateValue(val)`: subtract the zero offset, then divide by 25.4
when inches are active; record the (value, unit) display event and the
`[DATA]` log line. -/
def updateValue (val : ℚ) (s : EngineState) : EngineState :=
  let displayVal := val - s.zeroOffset
  let du : ℚ × GaugeUnit :=
    if s.useInches then (displayVal / 25.4, GaugeUnit.inch)
    else (displayVal, GaugeUnit.mm)
  { s with
    events := s.events ++ [du]
    logs := pushLog ⟨Tag.data, dataMsg du.1 du.2 val⟩ s.logs }

/-- The terminator branch of the character loop: with a non-empty buffer
of the expected length, build `numStr`, parse it, and on success emit
the value (`updateValue`), push the export record and the `[PARSED]`
line; a wrong non-zero length gets the `[INFO] Ignored buffer` line; in
every case the buffer and the pending-minus flag are reset. -/
def closeFrame (s : EngineState) : EngineState :=
  let s' :=
    if s.serialBuffer.length > 0 then
      if s.serialBuffer.length = EXPECTED_DIGIT_LENGTH then
        match parseFloatQ (formatNumStr s.serialBuffer s.pendingMinus) with
        | some mmVal =>
            let s1 := updateValue mmVal s
            let s2 := { s1 with logData := s1.logData ++ [Record.mk mmVal] }
            { s2 with logs := pushLog ⟨Tag.parsed,
                parsedMsg (formatNumStr s.serialBuffer s.pendingMinus)⟩ s2.logs }
        | none =>
            { s with logs := pushLog ⟨Tag.warn, warnMsg s.serialBuffer⟩ s.logs }
      else
        { s with logs := pushLog ⟨Tag.info, infoIgnoredMsg s.serialBuffer⟩ s.logs }
    else s
  { s' with serialBuffer := [], pendingMinus := false }

/-- One iteration of the per-character loop of `readSerialLoop` /
`parseGaugeData`: minus sets the pending flag, a terminator (CR, LF or
0x12) closes the frame, a digit is appended, anything else is ignored. -/
def processChar (s : EngineState) (ch : Char) : EngineState :=
  if ch = '-' then { s with pendingMinus := true }
  else if ch = '\r' ∨ ch = '\n' ∨ ch = '\x12' then closeFrame s
  else if '0' ≤ ch ∧ ch ≤ '9' then { s with serialBuffer := s.serialBuffer ++ [ch] }
  else s

/-- Handling of one received chunk: the `[BIN]` and `[RAW]` log lines,
then the character loop. -/
def processChunk (chunk : List Char) (s : EngineState) : EngineState :=
  chunk.foldl processChar
    { s with logs := pushLog ⟨Tag.raw, rawMsg chunk⟩ (pushLog ⟨Tag.bin, binMsg chunk⟩ s.logs) }

/-- Sequential handling of a list of chunks, the state persisting. -/
def processChunks (chunks : List (List Char)) (s : EngineState) : EngineState :=
  chunks.foldl (fun s c => processChunk c s) s

/-- The zero button handler: `zeroOffset = parseFloat(match[1]) + zeroOffset`.
The handler reads `currentValue` from the rendered display text; here it
is the explicit argument of the spec's `zero(currentValue)` control
surface. No value event and no log line are produced. -/
def zeroGauge (currentValue : ℚ) (s : EngineState) : EngineState :=
  { s with zeroOffset := currentValue + s.zeroOffset }

/-- The mm/inch button handler: flip `useInches`, then re-display the
last recorded raw value, if any, through `updateValue` (flipping the
unit leaves `logData` untouched, so the last record is read off `s`). -/
def toggleUnit (s : EngineState) : EngineState :=
  match s.logData.getLast? with
  | some r => updateValue r.value { s with useInches := !s.useInches }
  | none => { s with useInches := !s.useInches }

/-- Header row of the CSV download. -/
def csvHeader : String := "timestamp,value(mm)\n"

/-- One CSV row per export record (timestamp column omitted, see
module conventions). -/
def csvRow (r : Record) : String :=
  toString r.value ++ "\n"

/-- The `downloadBtn` CSV builder: start from the header and append one
row per `logData` record, in list order (`logData.forEach`). -/
def csvOf (l : List Record) : String :=
  l.foldl (fun csv r => csv ++ csvRow r) csvHeader

/-! ## Digit-string arithmetic -/

/-- Folding the digit accumulator from `init` scales `init` by the
number of digits consumed. -/
lemma foldl_digits (cs : List Char) (init : Nat) :
    cs.foldl (fun a c => a * 10 + (c.toNat - 48)) init
      = init * 10 ^ cs.length + natOfDigits cs := by
  induction cs generalizing init with
  | nil => simp [natOfDigits]
  | cons c t ih =>
    have h1 := ih (init * 10 + (c.toNat - 48))
    have h2 := ih (c.toNat - 48)
    simp only [List.foldl_cons, List.length_cons]
    rw [h1]
    have hn : natOfDigits (c :: t) = (c.toNat - 48) * 10 ^ t.length + natOfDigits t := by
      unfold natOfDigits
      simp only [List.foldl_cons, Nat.zero_mul, Nat.zero_add]
      exact h2
    rw [hn]
    ring

lemma natOfDigits_append (a b : List Char) :
    natOfDigits (a ++ b) = natOfDigits a * 10 ^ b.length + natOfDigits b := by
  unfold natOfDigits
  rw [List.foldl_append]
  exact foldl_digits b _

lemma natOfDigits_cons_zero (ds : List Char) :
    natOfDigits ('0' :: ds) = natOfDigits ds := by
  unfold natOfDigits
  simp [List.foldl_cons]

lemma natOfDigits_stripLeadingZeros (ds : List Char) :
    natOfDigits (stripLeadingZeros ds) = natOfDigits ds := by
  unfold stripLeadingZeros
  induction ds with
  | nil => rfl
  | cons c t ih =>
    rw [List.dropWhile_cons]
    by_cases hc : c = '0'
    · subst hc
      rw [if_pos (by decide), ih, natOfDigits_cons_zero]
    · simp [hc]

/-! ## Parsing the built decimal strings -/

lemma takeWhile_digits_of_all {a : List Char} (h : ∀ c ∈ a, c.isDigit) :
    a.takeWhile (fun c => c.isDigit) = a := by
  induction a with
  | nil => rfl
  | cons c t ih =>
    rw [List.takeWhile_cons]
    have hc : c.isDigit := h c (by simp)
    simp only [hc, if_pos]
    rw [ih fun x hx => h x (by simp [hx])]

lemma takeWhile_digits_append (a rest : List Char) (h : ∀ c ∈ a, c.isDigit) :
    (a ++ '.' :: rest).takeWhile (fun c => c.isDigit) = a := by
  induction a with
  | nil => simp [List.takeWhile_cons]
  | cons c t ih =>
    rw [List.cons_append, List.takeWhile_cons]
    have hc : c.isDigit := h c (by simp)
    simp only [hc, if_pos]
    rw [ih fun x hx => h x (by simp [hx])]

lemma dropWhile_digits_append (a rest : List Char) (h : ∀ c ∈ a, c.isDigit) :
    (a ++ '.' :: rest).dropWhile (fun c => c.isDigit) = '.' :: rest := by
  induction a with
  | nil => simp [List.dropWhile_cons]
  | cons c t ih =>
    rw [List.cons_append, List.dropWhile_cons]
    have hc : c.isDigit := h c (by simp)
    simp only [hc, if_pos]
    exact ih fun x hx => h x (by simp [hx])

lemma parseUnsignedQ_digits_dot (a b : List Char) (ha : a ≠ [])
    (haD : ∀ c ∈ a, c.isDigit) (hbD : ∀ c ∈ b, c.isDigit) :
    parseUnsignedQ (a ++ '.' :: b)
      = some ((natOfDigits a : ℚ) + (natOfDigits b : ℚ) / 10 ^ b.length) := by
  unfold parseUnsignedQ
  rw [takeWhile_digits_append a b haD, dropWhile_digits_append a b haD]
  simp only [List.head?_cons, List.tail_cons, List.isEmpty_iff, ha, if_false]
  rw [if_pos trivial, takeWhile_digits_of_all hbD]

/-- Whatever the branch of `insertDot`, a non-empty digit run parses to
its value divided by 1000. -/
lemma parseUnsignedQ_insertDot (ds : List Char) (hne : ds ≠ [])
    (hd : ∀ c ∈ ds, c.isDigit) :
    parseUnsignedQ (insertDot ds) = some ((natOfDigits ds : ℚ) / 1000) := by
  have hlen1 : 1 ≤ ds.length := by
    cases ds with
    | nil => exact absurd rfl hne
    | cons c t => simp
  unfold insertDot
  by_cases h3 : ds.length > 3
  · rw [if_pos h3]
    set k := ds.length - 3 with hk
    have hkpos : 0 < k := by omega
    have htd : ∀ c ∈ ds.take k, c.isDigit := fun c hc => hd c (List.take_subset k ds hc)
    have hdd : ∀ c ∈ ds.drop k, c.isDigit := fun c hc => hd c (List.drop_subset k ds hc)
    have htne : ds.take k ≠ [] := by
      have hkle : k ≤ ds.length := by omega
      have hlt : 0 < (ds.take k).length := by
        rw [List.length_take, min_eq_left hkle]
        omega
      exact List.length_pos.mp hlt
    rw [parseUnsignedQ_digits_dot _ _ htne htd hdd]
    have hdl : (ds.drop k).length = 3 := by
      rw [List.length_drop]
      omega
    have hsplit : natOfDigits ds = natOfDigits (ds.take k) * 10 ^ 3 + natOfDigits (ds.drop k) := by
      conv_lhs => rw [← List.take_append_drop k ds]
      rw [natOfDigits_append, hdl]
    have hfrac : ((natOfDigits (ds.take k) * 10 ^ 3 + natOfDigits (ds.drop k) : ℕ) : ℚ) / 1000
        = (natOfDigits (ds.take k) : ℚ) + (natOfDigits (ds.drop k) : ℚ) / 10 ^ 3 := by
      push_cast
      field_simp
      ring
    rw [hdl, hsplit, hfrac]
  · rw [if_neg h3]
    have hd0 : ('0' : Char).isDigit := by decide
    have h0 : natOfDigits ['0'] = 0 := by decide
    by_cases e3 : ds.length = 3
    · rw [if_pos e3]
      have hsh : ('0' : Char) :: '.' :: ds = ['0'] ++ '.' :: ds := rfl
      rw [hsh, parseUnsignedQ_digits_dot ['0'] ds (by simp)
        (by intro c hc; simp at hc; subst hc; exact hd0) hd]
      rw [e3, h0]
      norm_num
    · rw [if_neg e3]
      by_cases e2 : ds.length = 2
      · rw [if_pos e2]
        have hsh : ('0' : Char) :: '.' :: '0' :: ds = ['0'] ++ '.' :: ('0' :: ds) := rfl
        rw [hsh, parseUnsignedQ_digits_dot ['0'] ('0' :: ds) (by simp)
          (by intro c hc; simp at hc; subst hc; exact hd0)
          (by intro c hc; rcases List.mem_cons.mp hc with h | h
              · subst h; exact hd0
              · exact hd c h)]
        have hlen : (('0' : Char) :: ds).length = 3 := by simp [e2]
        rw [h0, natOfDigits_cons_zero, hlen]
        norm_num
      · have e1 : ds.length = 1 := by omega
        rw [if_neg e2, if_pos e1]
        have hsh : ('0' : Char) :: '.' :: '0' :: '0' :: ds = ['0'] ++ '.' :: ('0' :: '0' :: ds) := rfl
        rw [hsh, parseUnsignedQ_digits_dot ['0'] ('0' :: '0' :: ds) (by simp)
          (by intro c hc; simp at hc; subst hc; exact hd0)
          (by intro c hc; rcases List.mem_cons.mp hc with h | h
              · subst h; exact hd0
              · rcases List.mem_cons.mp h with h' | h'
                · subst h'; exact hd0
                · exact hd c h')]
        have hlen : (('0' : Char) :: '0' :: ds).length = 3 := by simp [e1]
        rw [h0, natOfDigits_cons_zero, natOfDigits_cons_zero, hlen]
        norm_num

/-- The first character of `insertDot` applied to a non-empty digit run
is a digit. -/
lemma insertDot_head_digit (ds : List Char) (hne : ds ≠ [])
    (hd : ∀ c ∈ ds, c.isDigit) :
    ∃ c, (insertDot ds).head? = some c ∧ c.isDigit := by
  unfold insertDot
  by_cases h3 : ds.length > 3
  · rw [if_pos h3]
    cases ds with
    | nil => exact absurd rfl hne
    | cons d t =>
      have hk : (d :: t).length - 3 = ((d :: t).length - 4) + 1 := by
        simp only [List.length_cons] at h3 ⊢
        omega
      rw [hk, List.take_succ_cons, List.cons_append, List.head?_cons]
      exact ⟨d, rfl, hd d (by simp)⟩
  · rw [if_neg h3]
    by_cases e3 : ds.length = 3
    · rw [if_pos e3]; exact ⟨'0', rfl, by decide⟩
    · rw [if_neg e3]
      by_cases e2 : ds.length = 2
      · rw [if_pos e2]; exact ⟨'0', rfl, by decide⟩
      · have hlen1 : 1 ≤ ds.length := by
          cases ds with
          | nil => exact absurd rfl hne
          | cons c t => simp
        have e1 : ds.length = 1 := by omega
        rw [if_neg e2, if_pos e1]
        exact ⟨'0', rfl, by decide⟩

/-- The full `numStr` pipeline of the terminator branch parses, for a
digit-only buffer, to the buffer's decimal value over 1000, negated when
the pending-minus flag is set. -/
lemma parse_format (buf : List Char) (pending : Bool)
    (hd : ∀ c ∈ buf, c.isDigit) :
    parseFloatQ (formatNumStr buf pending)
      = some ((if pending then (-1 : ℚ) else 1) * (natOfDigits buf : ℚ) / 1000) := by
  unfold formatNumStr
  set stripped := stripLeadingZeros buf with hstr
  have hstrD : ∀ c ∈ stripped, c.isDigit := fun c hc =>
    hd c ((List.dropWhile_sublist _).subset hc)
  have hstrV : natOfDigits stripped = natOfDigits buf := natOfDigits_stripLeadingZeros buf
  set base := if stripped.length = 0 then ['0'] else stripped with hbase
  have hbne : base ≠ [] := by
    rw [hbase]
    split
    · simp
    · intro hcon
      simp_all
  have hbD : ∀ c ∈ base, c.isDigit := by
    rw [hbase]
    split
    · intro c hc; simp at hc; subst hc; decide
    · exact hstrD
  have hbV : natOfDigits base = natOfDigits buf := by
    rw [hbase]
    split
    · rename_i hz
      have : stripped = [] := List.length_eq_zero.mp hz
      rw [← hstrV, this]
      rfl
    · exact hstrV
  obtain ⟨c0, hc0, hc0D⟩ := insertDot_head_digit base hbne hbD
  have hparse : parseUnsignedQ (insertDot base) = some ((natOfDigits buf : ℚ) / 1000) := by
    rw [parseUnsignedQ_insertDot base hbne hbD, hbV]
  have hc0ne : c0 ≠ '-' := by
    intro hcon
    subst hcon
    exact absurd hc0D (by decide)
  cases pending with
  | false =>
    rw [if_neg (by simp)]
    unfold parseFloatQ
    rw [if_neg (by rw [hc0]; simp [hc0ne]), hparse]
    norm_num
  | true =>
    rw [if_pos rfl]
    unfold parseFloatQ
    rw [List.head?_cons, if_pos rfl, List.tail_cons, hparse]
    simp only [Option.map_some', Option.some.injEq, if_true]
    ring

/-! ## Branch equations of the character loop -/

lemma processChar_minus (s : EngineState) :
    processChar s '-' = { s with pendingMinus := true } := by
  unfold processChar
  rw [if_pos rfl]

lemma processChar_terminator (s : EngineState) (ch : Char)
    (h : ch = '\r' ∨ ch = '\n' ∨ ch = '\x12') :
    processChar s ch = closeFrame s := by
  have hm : ¬ ch = '-' := by
    rcases h with h | h | h <;> subst h <;> decide
  unfold processChar
  rw [if_neg hm, if_pos h]

lemma processChar_digit (s : EngineState) (ch : Char)
    (hd : '0' ≤ ch ∧ ch ≤ '9') :
    processChar s ch = { s with serialBuffer := s.serialBuffer ++ [ch] } := by
  have hm : ¬ ch = '-' := by
    intro hcon
    subst hcon
    exact absurd hd (by decide)
  have ht : ¬ (ch = '\r' ∨ ch = '\n' ∨ ch = '\x12') := by
    intro hcon
    rcases hcon with h | h | h <;> subst h <;> exact absurd hd (by decide)
  unfold processChar
  rw [if_neg hm, if_neg ht, if_pos hd]

lemma processChar_other (s : EngineState) (ch : Char)
    (hm : ch ≠ '-')
    (ht : ¬ (ch = '\r' ∨ ch = '\n' ∨ ch = '\x12'))
    (hd : ¬ ('0' ≤ ch ∧ ch ≤ '9')) :
    processChar s ch = s := by
  unfold processChar
  rw [if_neg hm, if_neg ht, if_neg hd]

/-! ## The terminator branch, resolved -/

/-- Verification-layer abbreviation: the mm value a six-digit frame
parses to through the `numStr` pipeline. -/
def mmValOf (s : EngineState) : ℚ :=
  (if s.pendingMinus then (-1 : ℚ) else 1) * (natOfDigits s.serialBuffer : ℚ) / 1000

/-- Verification-layer abbreviation: the display event `updateValue`
emits for the raw value `v` under state `s`. -/
def dispPair (s : EngineState) (v : ℚ) : ℚ × GaugeUnit :=
  if s.useInches then ((v - s.zeroOffset) / 25.4, GaugeUnit.inch)
  else (v - s.zeroOffset, GaugeUnit.mm)

lemma updateValue_eq (v : ℚ) (s : EngineState) :
    updateValue v s =
      { s with
        events := s.events ++ [dispPair s v]
        logs := pushLog ⟨Tag.data, dataMsg (dispPair s v).1 (dispPair s v).2 v⟩ s.logs } := rfl

/-- Closing a frame over a six-digit buffer: one export record and one
display event are appended, the `[DATA]` and `[PARSED]` lines are
logged, and the buffer and flag are reset. -/
lemma closeFrame_six_eq (s : EngineState)
    (hlen : s.serialBuffer.length = EXPECTED_DIGIT_LENGTH)
    (hd : ∀ c ∈ s.serialBuffer, c.isDigit) :
    closeFrame s =
      { serialBuffer := []
        pendingMinus := false
        zeroOffset := s.zeroOffset
        useInches := s.useInches
        logData := s.logData ++ [Record.mk (mmValOf s)]
        logs := pushLog ⟨Tag.parsed, parsedMsg (formatNumStr s.serialBuffer s.pendingMinus)⟩
          (pushLog ⟨Tag.data,
            dataMsg (dispPair s (mmValOf s)).1 (dispPair s (mmValOf s)).2 (mmValOf s)⟩ s.logs)
        events := s.events ++ [dispPair s (mmValOf s)] } := by
  have hpos : s.serialBuffer.length > 0 := by
    rw [hlen]
    decide
  have hp := parse_format s.serialBuffer s.pendingMinus hd
  unfold closeFrame
  rw [if_pos hpos, if_pos hlen, hp]
  rfl

/-- Closing a frame whose buffer length is not the expected one: nothing
is emitted; the `[INFO] Ignored buffer` line is logged exactly when the
buffer is non-empty; buffer and flag are reset. -/
lemma closeFrame_badlen_eq (s : EngineState)
    (hlen : s.serialBuffer.length ≠ EXPECTED_DIGIT_LENGTH) :
    closeFrame s =
      if s.serialBuffer.length = 0 then
        { s with serialBuffer := [], pendingMinus := false }
      else
        { s with
          serialBuffer := []
          pendingMinus := false
          logs := pushLog ⟨Tag.info, infoIgnoredMsg s.serialBuffer⟩ s.logs } := by
  unfold closeFrame
  by_cases h0 : s.serialBuffer.length = 0
  · rw [if_pos h0, if_neg (by omega)]
  · rw [if_neg h0, if_pos (by omega), if_neg hlen]

/-! ## Chunk-boundary invariance: the log window is the only state the
`[BIN]`/`[RAW]` per-chunk lines touch -/

/-- Two engine states that agree on everything except the log window. -/
def SameExceptLogs (s₁ s₂ : EngineState) : Prop :=
  s₁.serialBuffer = s₂.serialBuffer ∧ s₁.pendingMinus = s₂.pendingMinus ∧
  s₁.zeroOffset = s₂.zeroOffset ∧ s₁.useInches = s₂.useInches ∧
  s₁.logData = s₂.logData ∧ s₁.events = s₂.events

lemma sel_refl (s : EngineState) : SameExceptLogs s s :=
  ⟨rfl, rfl, rfl, rfl, rfl, rfl⟩

lemma sel_symm {s₁ s₂ : EngineState} (h : SameExceptLogs s₁ s₂) :
    SameExceptLogs s₂ s₁ := by
  obtain ⟨h1, h2, h3, h4, h5, h6⟩ := h
  exact ⟨h1.symm, h2.symm, h3.symm, h4.symm, h5.symm, h6.symm⟩

lemma sel_trans {s₁ s₂ s₃ : EngineState}
    (h : SameExceptLogs s₁ s₂) (h' : SameExceptLogs s₂ s₃) :
    SameExceptLogs s₁ s₃ := by
  obtain ⟨h1, h2, h3, h4, h5, h6⟩ := h
  obtain ⟨g1, g2, g3, g4, g5, g6⟩ := h'
  exact ⟨h1.trans g1, h2.trans g2, h3.trans g3, h4.trans g4, h5.trans g5, h6.trans g6⟩

lemma sel_set_logs (s : EngineState) (ls : List LogEntry) :
    SameExceptLogs { s with logs := ls } s :=
  ⟨rfl, rfl, rfl, rfl, rfl, rfl⟩

lemma sel_closeFrame {s₁ s₂ : EngineState} (h : SameExceptLogs s₁ s₂) :
    SameExceptLogs (closeFrame s₁) (closeFrame s₂) := by
  obtain ⟨h1, h2, h3, h4, h5, h6⟩ := h
  unfold closeFrame updateValue
  rw [h1, h2]
  by_cases hc1 : s₂.serialBuffer.length > 0
  · rw [if_pos hc1, if_pos hc1]
    by_cases hc2 : s₂.serialBuffer.length = EXPECTED_DIGIT_LENGTH
    · rw [if_pos hc2, if_pos hc2]
      cases hpf : parseFloatQ (formatNumStr s₂.serialBuffer s₂.pendingMinus) with
      | some v =>
        simp only [hpf, h3, h4, h5, h6]
        exact ⟨rfl, rfl, rfl, rfl, rfl, rfl⟩
      | none =>
        simp only [hpf]
        exact ⟨rfl, rfl, h3, h4, h5, h6⟩
    · rw [if_neg hc2, if_neg hc2]
      exact ⟨rfl, rfl, h3, h4, h5, h6⟩
  · rw [if_neg hc1, if_neg hc1]
    exact ⟨rfl, rfl, h3, h4, h5, h6⟩

lemma sel_processChar {s₁ s₂ : EngineState} (c : Char)
    (h : SameExceptLogs s₁ s₂) :
    SameExceptLogs (processChar s₁ c) (processChar s₂ c) := by
  obtain ⟨h1, h2, h3, h4, h5, h6⟩ := h
  by_cases hm : c = '-'
  · subst hm
    rw [processChar_minus, processChar_minus]
    exact ⟨h1, rfl, h3, h4, h5, h6⟩
  · by_cases ht : c = '\r' ∨ c = '\n' ∨ c = '\x12'
    · rw [processChar_terminator s₁ c ht, processChar_terminator s₂ c ht]
      exact sel_closeFrame ⟨h1, h2, h3, h4, h5, h6⟩
    · by_cases hd : '0' ≤ c ∧ c ≤ '9'
      · rw [processChar_digit s₁ c hd, processChar_digit s₂ c hd]
        exact ⟨by rw [h1], h2, h3, h4, h5, h6⟩
      · rw [processChar_other s₁ c hm ht hd, processChar_other s₂ c hm ht hd]
        exact ⟨h1, h2, h3, h4, h5, h6⟩

lemma sel_foldl {s₁ s₂ : EngineState} (cs : List Char)
    (h : SameExceptLogs s₁ s₂) :
    SameExceptLogs (cs.foldl processChar s₁) (cs.foldl processChar s₂) := by
  induction cs generalizing s₁ s₂ with
  | nil => exact h
  | cons c t ih =>
    simp only [List.foldl_cons]
    exact ih (sel_processChar c h)

lemma sel_processChunk (chunk : List Char) (s : EngineState) :
    SameExceptLogs (processChunk chunk s) (chunk.foldl processChar s) := by
  unfold processChunk
  exact sel_foldl chunk (sel_set_logs _ _)

lemma sel_processChunks (chunks : List (List Char)) (s : EngineState) :
    SameExceptLogs (processChunks chunks s)
      (chunks.flatten.foldl processChar s) := by
  induction chunks generalizing s with
  | nil => exact sel_refl s
  | cons c cs ih =>
    have h1 : SameExceptLogs (processChunks (c :: cs) s)
        (cs.flatten.foldl processChar (processChunk c s)) := by
      unfold processChunks
      simp only [List.foldl_cons]
      exact ih (processChunk c s)
    have h2 : SameExceptLogs (cs.flatten.foldl processChar (processChunk c s))
        (cs.flatten.foldl processChar (c.foldl processChar s)) :=
      sel_foldl _ (sel_processChunk c s)
    have h3 : (c :: cs).flatten.foldl processChar s
        = cs.flatten.foldl processChar (c.foldl processChar s) := by
      rw [List.flatten_cons, List.foldl_append]
    rw [h3]
    exact sel_trans h1 h2

/-! ## The export log and event stream only ever grow at the end -/

lemma closeFrame_append_only (s : EngineState) :
    ∃ recs evs, (closeFrame s).logData = s.logData ++ recs ∧
      (closeFrame s).events = s.events ++ evs ∧ recs.length = evs.length := by
  unfold closeFrame updateValue
  by_cases hc1 : s.serialBuffer.length > 0
  · rw [if_pos hc1]
    by_cases hc2 : s.serialBuffer.length = EXPECTED_DIGIT_LENGTH
    · rw [if_pos hc2]
      cases hpf : parseFloatQ (formatNumStr s.serialBuffer s.pendingMinus) with
      | some v =>
        simp only [hpf]
        exact ⟨[Record.mk v], [if s.useInches
          then ((v - s.zeroOffset) / 25.4, GaugeUnit.inch)
          else (v - s.zeroOffset, GaugeUnit.mm)], rfl, rfl, rfl⟩
      | none =>
        simp only [hpf]
        exact ⟨[], [], by simp, by simp, rfl⟩
    · rw [if_neg hc2]
      exact ⟨[], [], by simp, by simp, rfl⟩
  · rw [if_neg hc1]
    exact ⟨[], [], by simp, by simp, rfl⟩

lemma processChar_append_only (s : EngineState) (c : Char) :
    ∃ recs evs, (processChar s c).logData = s.logData ++ recs ∧
      (processChar s c).events = s.events ++ evs ∧ recs.length = evs.length := by
  by_cases hm : c = '-'
  · subst hm
    rw [processChar_minus]
    exact ⟨[], [], by simp, by simp, rfl⟩
  · by_cases ht : c = '\r' ∨ c = '\n' ∨ c = '\x12'
    · rw [processChar_terminator s c ht]
      exact closeFrame_append_only s
    · by_cases hd : '0' ≤ c ∧ c ≤ '9'
      · rw [processChar_digit s c hd]
        exact ⟨[], [], by simp, by simp, rfl⟩
      · rw [processChar_other s c hm ht hd]
        exact ⟨[], [], by simp, by simp, rfl⟩

lemma foldl_append_only (cs : List Char) (s : EngineState) :
    ∃ recs evs, (cs.foldl processChar s).logData = s.logData ++ recs ∧
      (cs.foldl processChar s).events = s.events ++ evs ∧ recs.length = evs.length := by
  induction cs generalizing s with
  | nil => exact ⟨[], [], by simp, by simp, rfl⟩
  | cons c t ih =>
    obtain ⟨r1, e1, hr1, he1, hl1⟩ := processChar_append_only s c
    obtain ⟨r2, e2, hr2, he2, hl2⟩ := ih (processChar s c)
    refine ⟨r1 ++ r2, e1 ++ e2, ?_, ?_, ?_⟩
    · simp only [List.foldl_cons]
      rw [hr2, hr1, List.append_assoc]
    · simp only [List.foldl_cons]
      rw [he2, he1, List.append_assoc]
    · simp [hl1, hl2]

/-! ## Every log line the modelled engine writes carries a known tag -/

/-- The tags the modelled engine paths can attach to a log line. -/
def engineTags : List Tag :=
  [Tag.bin, Tag.raw, Tag.parsed, Tag.info, Tag.warn, Tag.error, Tag.status, Tag.data]

lemma mem_pushLog {e x : LogEntry} {ls : List LogEntry}
    (h : e ∈ pushLog x ls) : e ∈ ls ∨ e = x := by
  unfold pushLog at h
  by_cases hl : (ls ++ [x]).length > 200
  · rw [if_pos hl] at h
    have hsub : (ls ++ [x]).tail.Sublist (ls ++ [x]) := List.tail_sublist _
    rcases List.mem_append.mp (hsub.subset h) with h' | h'
    · exact Or.inl h'
    · exact Or.inr (List.mem_singleton.mp h')
  · rw [if_neg hl] at h
    rcases List.mem_append.mp h with h' | h'
    · exact Or.inl h'
    · exact Or.inr (List.mem_singleton.mp h')

lemma self_mem_pushLog (x : LogEntry) (ls : List LogEntry) :
    x ∈ pushLog x ls := by
  unfold pushLog
  by_cases hl : (ls ++ [x]).length > 200
  · rw [if_pos hl]
    cases ls with
    | nil => simp at hl
    | cons a t =>
      rw [List.cons_append, List.tail_cons]
      simp
  · rw [if_neg hl]
    simp

lemma pushLog_eq_append (x : LogEntry) (ls : List LogEntry)
    (h : ls.length < 200) : pushLog x ls = ls ++ [x] := by
  unfold pushLog
  rw [if_neg (by simp; omega)]

lemma closeFrame_tags (s : EngineState) :
    ∀ e ∈ (closeFrame s).logs, e ∈ s.logs ∨ e.tag ∈ engineTags := by
  intro e he
  unfold closeFrame updateValue at he
  by_cases hc1 : s.serialBuffer.length > 0
  · rw [if_pos hc1] at he
    by_cases hc2 : s.serialBuffer.length = EXPECTED_DIGIT_LENGTH
    · rw [if_pos hc2] at he
      cases hpf : parseFloatQ (formatNumStr s.serialBuffer s.pendingMinus) with
      | some v =>
        simp only [hpf] at he
        rcases mem_pushLog he with h' | h'
        · rcases mem_pushLog h' with h'' | h''
          · exact Or.inl h''
          · subst h''
            exact Or.inr (by simp [engineTags])
        · subst h'
          exact Or.inr (by simp [engineTags])
      | none =>
        simp only [hpf] at he
        rcases mem_pushLog he with h' | h'
        · exact Or.inl h'
        · subst h'
          exact Or.inr (by simp [engineTags])
    · rw [if_neg hc2] at he
      rcases mem_pushLog he with h' | h'
      · exact Or.inl h'
      · subst h'
        exact Or.inr (by simp [engineTags])
  · rw [if_neg hc1] at he
    exact Or.inl he

lemma processChar_tags (s : EngineState) (c : Char) :
    ∀ e ∈ (processChar s c).logs, e ∈ s.logs ∨ e.tag ∈ engineTags := by
  intro e he
  by_cases hm : c = '-'
  · subst hm
    rw [processChar_minus] at he
    exact Or.inl he
  · by_cases ht : c = '\r' ∨ c = '\n' ∨ c = '\x12'
    · rw [processChar_terminator s c ht] at he
      exact closeFrame_tags s e he
    · by_cases hd : '0' ≤ c ∧ c ≤ '9'
      · rw [processChar_digit s c hd] at he
        exact Or.inl he
      · rw [processChar_other s c hm ht hd] at he
        exact Or.inl he

lemma foldl_tags (cs : List Char) (s : EngineState) :
    ∀ e ∈ (cs.foldl processChar s).logs, e ∈ s.logs ∨ e.tag ∈ engineTags := by
  induction cs generalizing s with
  | nil => exact fun e he => Or.inl he
  | cons c t ih =>
    intro e he
    simp only [List.foldl_cons] at he
    rcases ih (processChar s c) e he with h' | h'
    · exact processChar_tags s c e h'
    · exact Or.inr h'

lemma toggleUnit_last (s : EngineState) (r : Record)
    (hlast : s.logData.getLast? = some r) :
    toggleUnit s = updateValue r.value { s with useInches := !s.useInches } := by
  unfold toggleUnit
  rw [hlast]

lemma closeFrame_six_logData (s : EngineState)
    (hlen : s.serialBuffer.length = EXPECTED_DIGIT_LENGTH)
    (hd : ∀ c ∈ s.serialBuffer, c.isDigit) :
    (closeFrame s).logData = s.logData ++ [Record.mk (mmValOf s)] := by
  rw [closeFrame_six_eq s hlen hd]

lemma closeFrame_six_logs (s : EngineState)
    (hlen : s.serialBuffer.length = EXPECTED_DIGIT_LENGTH)
    (hd : ∀ c ∈ s.serialBuffer, c.isDigit) :
    (closeFrame s).logs =
      pushLog ⟨Tag.parsed, parsedMsg (formatNumStr s.serialBuffer s.pendingMinus)⟩
        (pushLog ⟨Tag.data,
          dataMsg (dispPair s (mmValOf s)).1 (dispPair s (mmValOf s)).2 (mmValOf s)⟩ s.logs) := by
  rw [closeFrame_six_eq s hlen hd]

/-- Folding a run of digit characters just appends them to the buffer. -/
lemma foldl_digit_prefix (s : EngineState) (ds : List Char)
    (hd : ∀ c ∈ ds, '0' ≤ c ∧ c ≤ '9') :
    List.foldl processChar s ds = { s with serialBuffer := s.serialBuffer ++ ds } := by
  induction ds generalizing s with
  | nil => simp
  | cons c t ih =>
    rw [List.foldl_cons, processChar_digit s c (hd c (by simp)),
      ih _ (fun x hx => hd x (by simp [hx]))]
    have hl : (s.serialBuffer ++ [c]) ++ t = s.serialBuffer ++ c :: t := by
      rw [List.append_assoc]
      rfl
    show ({ s with serialBuffer := (s.serialBuffer ++ [c]) ++ t } : EngineState) = _
    rw [hl]

lemma csvOf_append (l : List Record) (r : Record) :
    csvOf (l ++ [r]) = csvOf l ++ csvRow r := by
  unfold csvOf
  rw [List.foldl_append]
  rfl

/-! ## Claim theorems -/

/-- C1: in Mode A, a terminator arriving over an accumulated six-digit
buffer emits exactly the value of the numStr pipeline (strip leading
zeros, insert the decimal point three digits from the end with
zero padding, prepend the minus sign when pending, parse), which equals
the signed buffer value divided by 1000; in particular the frame
"012345" yields 12.345 (see the witness). -/
theorem c1_six_digit_frame_value (s : EngineState) (ch : Char)
    (hterm : ch = '\r' ∨ ch = '\n' ∨ ch = '\x12')
    (hlen : s.serialBuffer.length = EXPECTED_DIGIT_LENGTH)
    (hd : ∀ c ∈ s.serialBuffer, c.isDigit) :
    parseFloatQ (formatNumStr s.serialBuffer s.pendingMinus)
      = some ((if s.pendingMinus then (-1 : ℚ) else 1)
          * (natOfDigits s.serialBuffer : ℚ) / 1000) ∧
    (processChar s ch).logData = s.logData ++
      [Record.mk ((if s.pendingMinus then (-1 : ℚ) else 1)
          * (natOfDigits s.serialBuffer : ℚ) / 1000)] := by
  refine ⟨parse_format s.serialBuffer s.pendingMinus hd, ?_⟩
  rw [processChar_terminator s ch hterm, closeFrame_six_eq s hlen hd]
  rfl

/-- Concrete engine state holding the accumulated frame "012345". -/
def c1state : EngineState :=
  { initialState with serialBuffer := ['0', '1', '2', '3', '4', '5'] }

/-- C1 witness: the hypotheses of the C1 theorem hold at the frame
"012345" closed by a carriage return, whose decimal value is 12345, so
the emitted value is 12345/1000 = 12.345. -/
theorem c1_six_digit_frame_value_witness :
    (c1state.serialBuffer.length = EXPECTED_DIGIT_LENGTH
      ∧ (∀ c ∈ c1state.serialBuffer, c.isDigit)
      ∧ natOfDigits c1state.serialBuffer = 12345) ∧
    (parseFloatQ (formatNumStr c1state.serialBuffer c1state.pendingMinus)
      = some ((if c1state.pendingMinus then (-1 : ℚ) else 1)
          * (natOfDigits c1state.serialBuffer : ℚ) / 1000) ∧
    (processChar c1state '\r').logData = c1state.logData ++
      [Record.mk ((if c1state.pendingMinus then (-1 : ℚ) else 1)
          * (natOfDigits c1state.serialBuffer : ℚ) / 1000)]) :=
  ⟨by decide, c1_six_digit_frame_value c1state '\r' (Or.inl rfl) (by decide) (by decide)⟩

/-- C2 counterexample: a terminator arriving with zero accumulated
digits (digit count 0 differs from the expected 6) produces no log line
at all — the log history is unchanged — contradicting the claim that
every wrong-length frame closure is logged. -/
theorem c2_empty_buffer_counterexample :
    initialState.serialBuffer.length ≠ EXPECTED_DIGIT_LENGTH ∧
    (processChar initialState '\r').logs = initialState.logs ∧
    (processChar initialState '\r').logData = initialState.logData ∧
    (processChar initialState '\r').events = initialState.events := by
  refine ⟨by decide, ?_, ?_, ?_⟩ <;>
    rw [processChar_terminator initialState '\r' (Or.inl rfl),
      closeFrame_badlen_eq initialState (by decide)] <;> rfl

/-- C2 (amended): a terminator arriving when the digit count differs
from the expected length emits no value and resets the buffer and the
pending-minus flag; the discard is logged with an `[INFO]` line exactly
when the digit count is non-zero, and silently when it is zero. -/
theorem c2_invalid_length_discard (s : EngineState) (ch : Char)
    (hterm : ch = '\r' ∨ ch = '\n' ∨ ch = '\x12')
    (hlen : s.serialBuffer.length ≠ EXPECTED_DIGIT_LENGTH) :
    (processChar s ch).logData = s.logData ∧
    (processChar s ch).events = s.events ∧
    (processChar s ch).serialBuffer = [] ∧
    (processChar s ch).pendingMinus = false ∧
    (processChar s ch).logs =
      (if s.serialBuffer.length = 0 then s.logs
       else pushLog ⟨Tag.info, infoIgnoredMsg s.serialBuffer⟩ s.logs) := by
  rw [processChar_terminator s ch hterm, closeFrame_badlen_eq s hlen]
  by_cases h0 : s.serialBuffer.length = 0
  · rw [if_pos h0, if_pos h0]
    exact ⟨rfl, rfl, rfl, rfl, rfl⟩
  · rw [if_neg h0, if_neg h0]
    exact ⟨rfl, rfl, rfl, rfl, rfl⟩

/-- Concrete engine state holding a two-digit (wrong-length) buffer. -/
def c2state : EngineState :=
  { initialState with serialBuffer := ['1', '2'] }

/-- C2 witness: the amended theorem applied to a line feed closing a
two-digit buffer: nothing is emitted, the state resets, and the
`[INFO] Ignored buffer` line is logged. -/
theorem c2_invalid_length_discard_witness :
    (c2state.serialBuffer.length ≠ EXPECTED_DIGIT_LENGTH) ∧
    ((processChar c2state '\n').logData = c2state.logData ∧
     (processChar c2state '\n').events = c2state.events ∧
     (processChar c2state '\n').serialBuffer = [] ∧
     (processChar c2state '\n').pendingMinus = false ∧
     (processChar c2state '\n').logs =
       (if c2state.serialBuffer.length = 0 then c2state.logs
        else pushLog ⟨Tag.info, infoIgnoredMsg c2state.serialBuffer⟩ c2state.logs)) :=
  ⟨by decide, c2_invalid_length_discard c2state '\n' (Or.inr (Or.inl rfl)) (by decide)⟩

/-- C3: a minus character only sets the pending-negative flag — the
digit accumulator and everything else are untouched — and the input
"-012345" closed by a carriage return parses to the negated value
−12.345. -/
theorem c3_minus_sets_pending_and_negates :
    (∀ s : EngineState, processChar s '-' = { s with pendingMinus := true }) ∧
    (processChunk ['-', '0', '1', '2', '3', '4', '5', '\r'] initialState).logData
      = [Record.mk (-12.345 : ℚ)] := by
  refine ⟨processChar_minus, ?_⟩
  have hval : ∀ s : EngineState, s.pendingMinus = true →
      s.serialBuffer = ['0', '1', '2', '3', '4', '5'] →
      mmValOf s = (-12.345 : ℚ) := by
    intro s hp hb
    unfold mmValOf
    rw [hp, hb, show natOfDigits ['0', '1', '2', '3', '4', '5'] = 12345 from by decide]
    norm_num
  unfold processChunk
  rw [List.foldl_cons, processChar_minus,
    show (['0', '1', '2', '3', '4', '5', '\r'] : List Char)
      = ['0', '1', '2', '3', '4', '5'] ++ ['\r'] from rfl,
    List.foldl_append, foldl_digit_prefix _ ['0', '1', '2', '3', '4', '5'] (by decide),
    List.foldl_cons, List.foldl_nil,
    processChar_terminator _ '\r' (Or.inl rfl),
    closeFrame_six_logData _ (by rfl) (by decide),
    hval _ rfl rfl]
  rfl

/-- C4: a character that is neither a digit, nor a terminator, nor a
minus sign leaves the whole engine state — accumulator, pending flag,
export log, log window, and emitted events — exactly unchanged. -/
theorem c4_other_chars_ignored (s : EngineState) (ch : Char)
    (hm : ch ≠ '-')
    (ht : ¬ (ch = '\r' ∨ ch = '\n' ∨ ch = '\x12'))
    (hd : ¬ ('0' ≤ ch ∧ ch ≤ '9')) :
    processChar s ch = s :=
  processChar_other s ch hm ht hd

/-- C4 witness: a space character is neither minus, nor a terminator,
nor a digit, and processing it from the initial state is the identity. -/
theorem c4_other_chars_ignored_witness :
    (' ' ≠ '-' ∧ ¬ (' ' = '\r' ∨ ' ' = '\n' ∨ ' ' = '\x12')
      ∧ ¬ ('0' ≤ ' ' ∧ ' ' ≤ '9')) ∧
    processChar initialState ' ' = initialState :=
  ⟨by decide,
   c4_other_chars_ignored initialState ' ' (by decide) (by decide) (by decide)⟩

/-- C5: Mode A segmentation is chunk-boundary invariant: processing any
list of chunks one after another yields the same export records and the
same value events as processing their concatenation as one chunk. -/
theorem c5_chunk_boundary_invariant (chunks : List (List Char)) (s : EngineState) :
    (processChunks chunks s).logData = (processChunk chunks.flatten s).logData ∧
    (processChunks chunks s).events = (processChunk chunks.flatten s).events := by
  have h := sel_trans (sel_processChunks chunks s)
    (sel_symm (sel_processChunk chunks.flatten s))
  exact ⟨h.2.2.2.2.1, h.2.2.2.2.2⟩

/-- C6 counterexample: `zero(5.0)` from offset 0 does set the offset to
5.0, but it emits no value event and no log line at all — the event
history stays empty — contradicting the claim that zeroing emits a
value event of 0. -/
theorem c6_zero_no_event_counterexample :
    (zeroGauge 5 initialState).zeroOffset = 5 ∧
    (zeroGauge 5 initialState).events = [] ∧
    (zeroGauge 5 initialState).logs = [] := by
  refine ⟨?_, rfl, rfl⟩
  show (5 : ℚ) + (0 : ℚ) = 5
  norm_num

/-- C6 (amended): zeroing updates the calibration offset cumulatively
(offset := currentValue + offset, so two zeroes accumulate), and emits
no value event, no export record, and no log line; the display shows 0
only once the next reading arrives. -/
theorem c6_zero_cumulative_no_event (v w : ℚ) (s : EngineState) :
    (zeroGauge v s).zeroOffset = v + s.zeroOffset ∧
    (zeroGauge w (zeroGauge v s)).zeroOffset = w + (v + s.zeroOffset) ∧
    (zeroGauge v s).events = s.events ∧
    (zeroGauge v s).logData = s.logData ∧
    (zeroGauge v s).logs = s.logs :=
  ⟨rfl, rfl, rfl, rfl, rfl⟩

/-- Concrete engine state whose last accepted raw value is 25.4 mm. -/
def c7state : EngineState :=
  { initialState with logData := [Record.mk 25.4] }

/-- C7 counterexample: toggling from mm to inch with last value 25.4
emits exactly 1, which is 25.4 divided by 25.4 — whereas the claimed
conversion constant gives 25.4 × 0.03937 ≠ 1: the code converts by
dividing by 25.4, not by multiplying by 0.03937. -/
theorem c7_conversion_constant_counterexample :
    (toggleUnit c7state).events = [((1 : ℚ), GaugeUnit.inch)] ∧
    ¬ ((25.4 : ℚ) * 0.03937 = 1) := by
  constructor
  · rw [toggleUnit_last c7state (Record.mk 25.4) rfl, updateValue_eq]
    show ([] : List (ℚ × GaugeUnit)) ++ [dispPair _ _] = _
    rw [List.nil_append]
    have : dispPair { c7state with useInches := !c7state.useInches } (Record.mk (25.4 : ℚ)).value
        = ((1 : ℚ), GaugeUnit.inch) := by
      unfold dispPair
      show (if true = true then _ else _) = _
      rw [if_pos rfl]
      show ((((25.4 : ℚ) - 0) / 25.4, GaugeUnit.inch) : ℚ × GaugeUnit) = _
      norm_num
    rw [this]
  · norm_num

/-- C7 (amended): toggling flips the active unit and, when a last value
exists, re-emits it with the offset subtracted and converted for
display by dividing by 25.4 when switching to inches (and re-emitted as
plain mm when switching back); with last value 25.4 and offset 0 the
inch display is exactly 1.000. -/
theorem c7_toggle_converts_by_division (s : EngineState) (r : Record)
    (hlast : s.logData.getLast? = some r) :
    (toggleUnit s).useInches = !s.useInches ∧
    (toggleUnit s).events = s.events ++
      [if s.useInches then (r.value - s.zeroOffset, GaugeUnit.mm)
       else ((r.value - s.zeroOffset) / 25.4, GaugeUnit.inch)] := by
  rw [toggleUnit_last s r hlast, updateValue_eq]
  refine ⟨rfl, ?_⟩
  show s.events ++ [dispPair { s with useInches := !s.useInches } r.value] = _
  unfold dispPair
  cases hu : s.useInches
  · rfl
  · rfl

/-- C7 witness: the amended theorem applied to the state whose last
record is 25.4 mm: the toggle activates inches and emits
(25.4 − 0) / 25.4. -/
theorem c7_toggle_converts_by_division_witness :
    (c7state.logData.getLast? = some (Record.mk 25.4)) ∧
    ((toggleUnit c7state).useInches = !c7state.useInches ∧
     (toggleUnit c7state).events = c7state.events ++
       [if c7state.useInches
        then ((Record.mk (25.4 : ℚ)).value - c7state.zeroOffset, GaugeUnit.mm)
        else (((Record.mk (25.4 : ℚ)).value - c7state.zeroOffset) / 25.4, GaugeUnit.inch)]) :=
  ⟨rfl, c7_toggle_converts_by_division c7state (Record.mk 25.4) rfl⟩

/-- C8 counterexample: processing the frame "012345" with a terminator
writes, besides `[BIN]`, `[RAW]` and `[PARSED]`, a `[DATA]` log line
from the value-display path — and DATA is not among the seven tags the
claim allows. -/
theorem c8_data_tag_counterexample :
    (processChunk ['0', '1', '2', '3', '4', '5', '\r'] initialState).logs.map LogEntry.tag
      = [Tag.bin, Tag.raw, Tag.data, Tag.parsed] ∧
    Tag.data ∉ [Tag.bin, Tag.raw, Tag.parsed, Tag.info, Tag.warn, Tag.error, Tag.status] := by
  constructor
  · unfold processChunk
    rw [show (['0', '1', '2', '3', '4', '5', '\r'] : List Char)
        = ['0', '1', '2', '3', '4', '5'] ++ ['\r'] from rfl,
      List.foldl_append, foldl_digit_prefix _ ['0', '1', '2', '3', '4', '5'] (by decide),
      List.foldl_cons, List.foldl_nil,
      processChar_terminator _ '\r' (Or.inl rfl),
      closeFrame_six_logs _ (by rfl) (by decide)]
    rfl
  · decide

/-- C8 (amended): every log line written by chunk processing carries
one of the eight tags BIN, RAW, PARSED, INFO, WARN, ERROR, STATUS or
DATA — the claim's seven plus the DATA tag of the value-display path. -/
theorem c8_log_tags_bounded (chunk : List Char) (s : EngineState) (e : LogEntry)
    (he : e ∈ (processChunk chunk s).logs) :
    e ∈ s.logs ∨ e.tag ∈ engineTags := by
  unfold processChunk at he
  rcases foldl_tags chunk _ e he with h' | h'
  · rcases mem_pushLog h' with h'' | h''
    · rcases mem_pushLog h'' with h3 | h3
      · exact Or.inl h3
      · subst h3
        exact Or.inr (by simp [engineTags])
    · subst h''
      exact Or.inr (by simp [engineTags])
  · exact Or.inr h'

/-- C8 witness: the `[RAW]` line written for the empty chunk is in the
resulting log, and its tag is among the eight engine tags. -/
theorem c8_log_tags_bounded_witness :
    ((⟨Tag.raw, rawMsg []⟩ : LogEntry) ∈ (processChunk [] initialState).logs) ∧
    ((⟨Tag.raw, rawMsg []⟩ : LogEntry) ∈ initialState.logs
      ∨ (⟨Tag.raw, rawMsg []⟩ : LogEntry).tag ∈ engineTags) :=
  ⟨by decide, c8_log_tags_bounded [] initialState ⟨Tag.raw, rawMsg []⟩ (by decide)⟩

/-- C9: the export log is append-only under chunk processing — the old
records stay as a prefix, exactly one record is appended per emitted
value event — and the CSV builder renders records in list order, each
appended record contributing one row at the end. -/
theorem c9_export_log_append_only (chunk : List Char) (s : EngineState) :
    (∃ recs evs, (processChunk chunk s).logData = s.logData ++ recs ∧
        (processChunk chunk s).events = s.events ++ evs ∧
        recs.length = evs.length) ∧
    (∀ (l : List Record) (r : Record), csvOf (l ++ [r]) = csvOf l ++ csvRow r) := by
  constructor
  · unfold processChunk
    exact foldl_append_only chunk _
  · exact csvOf_append

/-- C10: the displayed and emitted value subtracts the calibration
offset from the raw mm value first and converts mm to inches (by
dividing by 25.4) afterwards; the two orderings genuinely differ, as
the second conjunct records. -/
theorem c10_offset_subtracted_before_conversion (v : ℚ) (s : EngineState) :
    (updateValue v s).events = s.events ++
      [if s.useInches then ((v - s.zeroOffset) / 25.4, GaugeUnit.inch)
       else (v - s.zeroOffset, GaugeUnit.mm)] ∧
    ((2 : ℚ) - 1) / 25.4 ≠ 2 / 25.4 - 1 :=
  ⟨rfl, by norm_num⟩

end DialGauge
